import Mathlib

/-!
# Verification of the git-grep search-result aggregation pipeline

Shallow embedding of `src/pr_agent/git_grep_agent.py`: the query executor
(`run_git_grep`), the inline symbol-extraction step, and the result
aggregator inside `GitGrepAgent.next_turn`.

Conventions of the embedding:
* Python strings are Lean `String`s; `str.split(":", 2)` is modelled by an
  explicit character-level splitter (`splitCharsOnColon` / `pySplit2Colon`).
* The external `subprocess.run(["git", "grep", "-n", query], ...)` call is an
  oracle: its outcome (an exception, or a completed process with some stdout)
  is a parameter of type `GrepOutcome`.
* The file system consulted by `open(file_path)` + `ast.parse` is an oracle
  `FS : String → PyParseResult`: for each path, either a parsed module body
  (a list of top-level Python statements) or an error (unreadable file,
  syntax error, ...).
* Python `ast` nodes are modelled by `PyStmt`, keeping exactly the
  distinctions the code inspects: `ast.FunctionDef`, `ast.AsyncFunctionDef`,
  `ast.ClassDef`, and everything else; nested statement lists are carried so
  that "top level only" is a meaningful statement.
* Pydantic's `float` field `similarity_score` only ever holds the exact
  constant `1.0`, so it is modelled by `ℚ` (exact at that value).
* Raising an exception out of `next_turn` is modelled by `Except`.
-/

namespace GitGrep

/-- Model of a Python `ast` statement, as far as `git_grep_agent.py`
inspects it: the code only tests `isinstance(n, ast.ClassDef)` and
`isinstance(n, ast.FunctionDef)` and reads `n.name`, so we keep those two
constructors, the `async def` case (a distinct class `ast.AsyncFunctionDef`
in Python), and a catch-all.  Each definition carries its nested body so
that nesting is representable. -/
inductive PyStmt where
  | functionDef (name : String) (body : List PyStmt)
  | asyncFunctionDef (name : String) (body : List PyStmt)
  | classDef (name : String) (body : List PyStmt)
  | other

/-- Outcome of `open(file_path)` followed by `ast.parse(file.read())` for one
path: either the parsed module's top-level statement list (`node.body`), or
any exception (IOError, SyntaxError, ...). -/
inductive PyParseResult where
  | ok (body : List PyStmt)
  | error

/-- The file system as seen by the symbol-extraction step. -/
def FS := String → PyParseResult

/-- Embedding of the pydantic model `CodeSection` (git_grep_agent.py lines
13–26). -/
structure CodeSection where
  search_result : String
  file_path : String
  included_defs : List String
  similarity_score : ℚ
deriving DecidableEq, Repr

/-- Embedding of the pydantic model `CodeSections` (lines 31–39). -/
structure CodeSections where
  sections : List CodeSection
  search_query : String
deriving DecidableEq, Repr

/-! ## Query executor: `run_git_grep` (lines 60–88) -/

/-- Full split of a character list at every occurrence of `sep`; the
building block for Python's `str.split(sep)` and `str.splitlines()`.
Mirrors CPython semantics: splitting the empty string gives one (empty)
field, `n` separators give `n + 1` fields. -/
def splitCharsOn (sep : Char) : List Char → List (List Char)
  | [] => [[]]
  | c :: cs =>
    if c = sep then [] :: splitCharsOn sep cs
    else
      match splitCharsOn sep cs with
      | r :: rs => (c :: r) :: rs
      | [] => [[c]]

/-- Full split at every `':'`: Python `s.split(":")`. -/
def splitCharsOnColon : List Char → List (List Char) :=
  splitCharsOn ':'

/-- Rejoin split fields with `':'`; used to model the "remainder" field that
`str.split(":", 2)` leaves intact. -/
def joinColon : List (List Char) → List Char
  | [] => []
  | [x] => x
  | x :: xs => x ++ ':' :: joinColon xs

/-- Model of Python `s.split(":", 2)`: at most two splits, the third field
keeps any further colons verbatim. -/
def pySplit2Colon (s : String) : List (List Char) :=
  match splitCharsOnColon s.data with
  | a :: b :: c :: rest => [a, b, joinColon (c :: rest)]
  | parts => parts

/-- The per-line parsing step of `run_git_grep` (lines 78–84): skip empty
lines (`if not line: continue`), split into at most three parts
(`line.split(":", 2)`), and keep `(file_path, matched_line)` when the line
has the full `path:line-number:content` shape (`len(parts) >= 3`; with
`maxsplit=2` this means exactly 3). -/
def parseGrepLine (line : String) : Option (String × String) :=
  if line = "" then none
  else
    match pySplit2Colon line with
    | [file_path, _line_number, matched_line] => some (⟨file_path⟩, ⟨matched_line⟩)
    | _ => none

/-- Outcome of the external `subprocess.run(["git", "grep", "-n", query])`
invocation: either an exception was raised (binary missing, bad argument,
invocation error — caught by the `except` on line 86), or the process
completed and produced `stdout` (possibly empty, e.g. outside a repository,
since `check=False` means a nonzero exit does not raise). -/
inductive GrepOutcome where
  | raised
  | completed (stdout : String)

/-- Model of Python `stdout.splitlines()` for `'\n'`-separated text (the
only line terminator git grep emits): split on `'\n'`, except that a
trailing terminator does not open an extra empty field and the empty string
has no lines at all. -/
def pySplitLines (s : String) : List String :=
  match (splitCharsOn '\n' s.data).reverse with
  | [] => []
  | last :: revInit =>
    ((if last = [] then revInit else last :: revInit).reverse).map fun l => ⟨l⟩

/-- Embedding of `run_git_grep` (lines 60–88), parameterised by the outcome
of the external invocation. -/
def run_git_grep (outcome : GrepOutcome) : List (String × String) :=
  match outcome with
  | .raised => []
  | .completed stdout => (pySplitLines stdout).filterMap parseGrepLine

/-! ## Symbol extraction step (lines 119–130, inline in `next_turn`) -/

/-- Model of Python `file_path.endswith(".py")`. -/
def endsWithPy (s : String) : Bool :=
  List.isSuffixOf ['.', 'p', 'y'] s.data

/-- The symbol-extraction step of `next_turn` (lines 119–130): for a `.py`
file, open and parse it and collect `n.name` for every top-level statement
`n` in `node.body` that is an `ast.ClassDef` or `ast.FunctionDef`; any
exception, and any non-`.py` path, yields `[]`. -/
def extract_included_defs (fs : FS) (file_path : String) : List String :=
  if endsWithPy file_path then
    match fs file_path with
    | .ok body =>
      body.filterMap fun n =>
        match n with
        | .classDef name _ => some name
        | .functionDef name _ => some name
        | _ => none
    | .error => []
  else []

/-! ## Result aggregator: the match loop of `next_turn` (lines 113–139) -/

/-- Embedding of the guard `if file_path not in allSections.sections:`
(line 118).  In Python this asks whether the *string* `file_path` equals
some element of a list of `CodeSection` *models*; `str.__eq__` and pydantic's
`BaseModel.__eq__` both return `NotImplemented` across these types, so each
comparison falls back to identity and is `False`.  The membership test is
therefore vacuously false for every section list. -/
def str_in_sections (file_path : String) (sections : List CodeSection) : Bool :=
  sections.any fun _sec => false

/-- One iteration of the `for file_path, matched_line in grep_results:` loop
(lines 117–139).  The state is the accumulated `allSections.sections`
together with an instrumentation trace: the list of file paths on which the
symbol-extraction step (lines 119–130, the `open` + `ast.parse` block) has
been entered so far.  The trace changes nothing about the computed sections;
it only records how often extraction ran. -/
def process_match (fs : FS) (st : List CodeSection × List String)
    (m : String × String) : List CodeSection × List String :=
  if str_in_sections m.1 st.1 = false then
    -- lines 119–130: `included_defs = []` / `try: ... except: ...`
    let included_defs := extract_included_defs fs m.1
    let calls := st.2 ++ [m.1]
    -- line 133: `if not any(sec.file_path == file_path for sec in ...)`
    if st.1.any fun sec => sec.file_path == m.1 then
      (st.1, calls)
    else
      (st.1 ++ [⟨m.2, m.1, included_defs, (1.0 : ℚ)⟩], calls)
  else
    (st.1, st.2)

/-- The whole `for` loop of `next_turn`, threading the section list and the
extraction trace through the raw matches in order. -/
def aggregate_loop (fs : FS) (st : List CodeSection × List String) :
    List (String × String) → List CodeSection × List String
  | [] => st
  | m :: ms => aggregate_loop fs (process_match fs st m) ms

/-- The `sections` field of the collection `next_turn` builds for a given
raw match list. -/
def aggregate_sections (fs : FS) (grep_results : List (String × String)) :
    List CodeSection :=
  (aggregate_loop fs ([], []) grep_results).1

/-- The sequence of file paths on which `next_turn`'s symbol-extraction step
runs, for a given raw match list (instrumentation of lines 119–130). -/
def extractor_calls (fs : FS) (grep_results : List (String × String)) :
    List String :=
  (aggregate_loop fs ([], []) grep_results).2

/-! ## The turn entry point `next_turn` (lines 93–141) -/

/-- The `request` argument of `next_turn`: either a `Prompt` event (the code
reads `request.payload`) or a plain string. -/
inductive Request where
  | prompt (payload : String)
  | plain (s : String)

/-- The exception `next_turn` can raise: constructing
`CodeSections(sections=[], search_query=None)` on line 114 fails pydantic
validation when `request_context.get("query")` returned `None`, because
`search_query` is declared `str`. -/
inductive PydanticError where
  | validationError

/-- Embedding of `next_turn` (lines 93–141), up to the value carried by the
final `TurnEnd` event.  `request_context.get("query")` is the
`Option String` argument; the external grep is the oracle `grep` (already
composed with `run_git_grep`'s parsing, i.e. `grep q` is the
`(file_path, matched_line)` list that `self.run_git_grep(q)` returns for the
query `q`).  The `request` argument only feeds the `PromptStarted` event
(line 105–106) and cannot affect the result. -/
def next_turn (_request : Request) (request_context_query : Option String)
    (fs : FS) (grep : String → List (String × String)) :
    Except PydanticError CodeSections :=
  match request_context_query with
  | none =>
    -- line 110 calls `run_git_grep(None)`; its internal `except` swallows the
    -- TypeError, but line 114 then raises a pydantic ValidationError.
    .error .validationError
  | some search_query =>
    .ok { sections := aggregate_sections fs (grep search_query)
          search_query := search_query }

/-! ## Spec-side definitions and concrete fixtures -/

/-- Written from the spec's words (§4.2): "the ordered sequence of names of
top-level function and class definitions in that file" — the names of the
statements of the module body that are plain function or class definitions,
in source order; nested bodies are never examined. -/
def topLevelDefNames (body : List PyStmt) : List String :=
  body.filterMap fun s =>
    match s with
    | .functionDef name _ => some name
    | .classDef name _ => some name
    | _ => none

/-- Erase the `included_defs` of the section for file path `p`, leaving all
other fields and all other sections untouched.  Two aggregation runs that
agree after `map (blankDefsAt p)` differ at most in the symbols extracted
for `p`. -/
def blankDefsAt (p : String) (sec : CodeSection) : CodeSection :=
  if sec.file_path = p then { sec with included_defs := [] } else sec

/-- Fixture module body: a top-level function (with a nested function), a
top-level class (with a method), a top-level `async def`, and a
non-definition statement. -/
def bodyA : List PyStmt :=
  [.functionDef "foo" [.functionDef "inner" []],
   .classDef "Bar" [.functionDef "method" []],
   .asyncFunctionDef "fetch" [],
   .other]

/-- Fixture file system: `a.py` parses to `bodyA`; everything else fails to
open or parse. -/
def fsA : FS := fun p =>
  if p = "a.py" then .ok bodyA else .error

/-- Fixture file system that differs from `fsA` only at `bad.py`. -/
def fsB : FS := fun p =>
  if p = "bad.py" then .ok [.functionDef "hidden" []] else fsA p

/-! ## Helper lemmas about the aggregation loop -/

/-- The guard on line 118 compares a string with pydantic models, so it never
finds a member: the test is false for every section list. -/
theorem str_in_sections_eq_false (p : String) (secs : List CodeSection) :
    str_in_sections p secs = false := by
  simp [str_in_sections]

/-- `process_match` with the vacuous line-118 guard simplified away: every
match reaches the extraction step; the `any` check on line 133 alone decides
whether a section is appended. -/
theorem process_match_eq (fs : FS) (st : List CodeSection × List String)
    (m : String × String) :
    process_match fs st m =
      if st.1.any (fun sec => sec.file_path == m.1) then
        (st.1, st.2 ++ [m.1])
      else
        (st.1 ++ [⟨m.2, m.1, extract_included_defs fs m.1, (1.0 : ℚ)⟩],
         st.2 ++ [m.1]) := by
  simp [process_match, str_in_sections_eq_false]

theorem aggregate_loop_nil (fs : FS) (st : List CodeSection × List String) :
    aggregate_loop fs st [] = st :=
  rfl

theorem aggregate_loop_cons (fs : FS) (st : List CodeSection × List String)
    (m : String × String) (ms : List (String × String)) :
    aggregate_loop fs st (m :: ms) =
      aggregate_loop fs (process_match fs st m) ms :=
  rfl

/-- The loop preserves pairwise-distinct file paths of the accumulated
sections. -/
theorem aggregate_loop_pairwise (fs : FS) (ms : List (String × String)) :
    ∀ st : List CodeSection × List String,
      st.1.Pairwise (fun a b => a.file_path ≠ b.file_path) →
      (aggregate_loop fs st ms).1.Pairwise
        (fun a b => a.file_path ≠ b.file_path) := by
  induction ms with
  | nil => exact fun st h => h
  | cons m ms ih =>
    intro st h
    rw [aggregate_loop_cons]
    apply ih
    rw [process_match_eq]
    split
    · exact h
    · rename_i hany
      rw [List.pairwise_append]
      refine ⟨h, List.pairwise_singleton _ _, ?_⟩
      intro a ha b hb heq
      rw [List.mem_singleton] at hb
      subst hb
      exact hany (List.any_eq_true.2 ⟨a, ha, beq_iff_eq.2 heq⟩)

/-- The loop records one extraction per raw match, regardless of earlier
sections: the line-118 guard never filters anything. -/
theorem aggregate_loop_calls (fs : FS) (ms : List (String × String)) :
    ∀ st : List CodeSection × List String,
      (aggregate_loop fs st ms).2 = st.2 ++ ms.map Prod.fst := by
  induction ms with
  | nil => intro st; rw [aggregate_loop_nil]; simp
  | cons m ms ih =>
    intro st
    rw [aggregate_loop_cons, ih, process_match_eq]
    split <;> simp

/-- Every section the loop ever accumulates carries similarity score 1. -/
theorem aggregate_loop_score (fs : FS) (ms : List (String × String)) :
    ∀ st : List CodeSection × List String,
      (∀ s ∈ st.1, s.similarity_score = (1.0 : ℚ)) →
      ∀ s ∈ (aggregate_loop fs st ms).1, s.similarity_score = (1.0 : ℚ) := by
  induction ms with
  | nil => exact fun st h => h
  | cons m ms ih =>
    intro st h
    rw [aggregate_loop_cons]
    apply ih
    rw [process_match_eq]
    split
    · exact h
    · intro s hs
      rcases List.mem_append.1 hs with hs | hs
      · exact h s hs
      · rw [List.mem_singleton] at hs
        subst hs
        rfl

/-! ## Claim theorems -/

/-- C1: in every collection a turn produces, no two elements of `sections`
share a `file_path` — each distinct path in the raw grep matches contributes
at most one `CodeSection`. -/
theorem sections_file_paths_nodup (fs : FS)
    (grep_results : List (String × String)) :
    (aggregate_sections fs grep_results).Pairwise
      (fun a b => a.file_path ≠ b.file_path) :=
  aggregate_loop_pairwise fs grep_results ([], []) List.Pairwise.nil

/-- C2 counterexample: two raw matches in the same file `a.py` yield a single
section, yet the symbol-extraction step (the file-open-and-parse block,
lines 119–130) is entered twice for `a.py` — the line-118 membership check
compares the path string against `CodeSection` models and never matches, so
a later duplicate match *does* trigger re-extraction. -/
theorem extractor_reinvoked_on_duplicate_path :
    (extractor_calls fsA [("a.py", "l1"), ("a.py", "l2")]).count "a.py" = 2 ∧
    (aggregate_sections fsA [("a.py", "l1"), ("a.py", "l2")]).length = 1 := by
  constructor <;> rfl

/-- C2 (amended): the aggregator enters the symbol-extraction step once per
raw match — the sequence of extraction invocations equals the sequence of
matched file paths, so a path with k matches is extracted k times;
deduplication only suppresses appending a second section, via the `any`
check on line 133. -/
theorem extractor_calls_eq_match_paths (fs : FS)
    (grep_results : List (String × String)) :
    extractor_calls fs grep_results = grep_results.map Prod.fst := by
  rw [extractor_calls, aggregate_loop_calls]
  rfl

/-- C3: when the search yields no matches, the turn returns (rather than
raises) a collection with empty `sections` whose `search_query` equals the
query string given to the turn. -/
theorem next_turn_no_matches (request : Request) (q : String) (fs : FS)
    (grep : String → List (String × String)) (h : grep q = []) :
    next_turn request (some q) fs grep =
      .ok { sections := [], search_query := q } := by
  rw [next_turn, h]
  rfl

/-- C3 witness: a concrete no-match turn. -/
theorem next_turn_no_matches_witness :
    next_turn (.plain "TARGET") (some "TARGET") fsA (fun _ => []) =
      .ok { sections := [], search_query := "TARGET" } :=
  next_turn_no_matches (.plain "TARGET") "TARGET" fsA (fun _ => []) rfl

/-- C6: a failed invocation of the external search facility — a raised
exception (binary missing, invocation error) or a completed run with no
stdout (e.g. not inside a repository, `check=False` suppressing the nonzero
exit) — makes `run_git_grep` return the empty match list instead of
propagating an exception. -/
theorem run_git_grep_failure_empty :
    run_git_grep .raised = [] ∧ run_git_grep (.completed "") = [] :=
  ⟨rfl, rfl⟩

/-- C9: every `CodeSection` in every collection a turn produces has
`similarity_score = 1.0`. -/
theorem similarity_score_eq_one (fs : FS)
    (grep_results : List (String × String)) (s : CodeSection)
    (hs : s ∈ aggregate_sections fs grep_results) :
    s.similarity_score = 1.0 :=
  aggregate_loop_score fs grep_results ([], []) (by intro s h; cases h) s hs

/-- C9 witness: the concrete section produced for `a.py` scores 1.0. -/
theorem similarity_score_eq_one_witness :
    ({ search_result := "l1", file_path := "a.py",
       included_defs := ["foo", "Bar"],
       similarity_score := 1.0 } : CodeSection).similarity_score = 1.0 :=
  similarity_score_eq_one fsA [("a.py", "l1")] _ (List.mem_singleton.2 rfl)

/-- The section the loop ends up holding for path `p` is the one already in
the accumulator if there is one, and otherwise the section built from the
first remaining match whose file path is `p`. -/
theorem aggregate_loop_find? (fs : FS) (ms : List (String × String)) :
    ∀ (st : List CodeSection × List String) (p : String),
      (aggregate_loop fs st ms).1.find? (fun sec => sec.file_path == p) =
        (st.1.find? (fun sec => sec.file_path == p)).or
          ((ms.find? (fun m => m.1 == p)).map
            (fun m => ⟨m.2, m.1, extract_included_defs fs m.1, (1.0 : ℚ)⟩)) := by
  induction ms with
  | nil =>
    intro st p
    rw [aggregate_loop_nil]
    simp
  | cons m ms ih =>
    intro st p
    rw [aggregate_loop_cons, ih, process_match_eq]
    by_cases hany : (st.1.any fun sec => sec.file_path == m.1) = true
    · rw [if_pos hany]
      dsimp only
      by_cases hm : (m.1 == p) = true
      · have hmp : m.1 = p := beq_iff_eq.1 hm
        subst hmp
        rw [List.find?_cons_of_pos ms hm]
        obtain ⟨a, ha⟩ :=
          Option.isSome_iff_exists.1 (List.find?_isSome.2 (List.any_eq_true.1 hany))
        rw [ha]
        rfl
      · rw [List.find?_cons_of_neg ms hm]
    · rw [if_neg hany]
      dsimp only
      have hf : (st.1.any fun sec => sec.file_path == m.1) = false := by
        simpa using hany
      by_cases hm : (m.1 == p) = true
      · have hmp : m.1 = p := beq_iff_eq.1 hm
        subst hmp
        have hnone : st.1.find? (fun sec => sec.file_path == m.1) = none :=
          List.find?_eq_none.2 (List.any_eq_false.1 hf)
        rw [List.find?_append, hnone, List.find?_cons_of_pos ms hm,
            List.find?_cons_of_pos (p := fun sec : CodeSection => sec.file_path == m.1) [] hm]
        rfl
      · rw [List.find?_append, List.find?_cons_of_neg ms hm,
            List.find?_cons_of_neg (p := fun sec : CodeSection => sec.file_path == p) [] hm]
        simp


/-- C4: the (unique) section for a file path is built entirely from the
first raw match with that path: its `search_result` is that match's line and
its other fields come from that first processing step; matches processed
later never replace or modify it.  (When the path never occurs, there is no
section for it.) -/
theorem section_from_first_match (fs : FS)
    (grep_results : List (String × String)) (p : String) :
    (aggregate_sections fs grep_results).find?
        (fun sec => sec.file_path == p) =
      (grep_results.find? (fun m => m.1 == p)).map
        (fun m => ⟨m.2, m.1, extract_included_defs fs m.1, (1.0 : ℚ)⟩) := by
  rw [aggregate_sections, aggregate_loop_find?]
  rfl

/-- The code's comprehension filter (`isinstance` checks in the order
`ClassDef`, `FunctionDef`) collects exactly the spec's top-level definition
names. -/
theorem filterMap_arms_comm (body : List PyStmt) :
    (body.filterMap fun n =>
      match n with
      | .classDef name _ => some name
      | .functionDef name _ => some name
      | _ => none) = topLevelDefNames body := by
  induction body with
  | nil => rfl
  | cons s rest ih =>
    simp only [topLevelDefNames, List.filterMap_cons] at ih ⊢
    cases s <;> simp only [ih]

/-- C5: the symbol extraction step returns exactly the names of the
function and class definitions at the top level of the parsed module body,
in source order (nested definitions are never examined); and a path not
recognized as Python yields `[]` for *every* file system — no parse is
attempted, so the file's content is irrelevant. -/
theorem extractor_contract (fs : FS) (p : String) :
    (∀ body, endsWithPy p = true → fs p = .ok body →
      extract_included_defs fs p = topLevelDefNames body) ∧
    (endsWithPy p = false →
      ∀ fs' : FS, extract_included_defs fs' p = []) := by
  constructor
  · intro body hpy hfs
    unfold extract_included_defs
    rw [if_pos hpy, hfs]
    exact filterMap_arms_comm body
  · intro hnpy fs'
    unfold extract_included_defs
    rw [if_neg ?c]
    case c => simp [hnpy]

/-- C5 witness: on the fixture, `a.py` yields exactly its two top-level
plain definitions (the nested `inner` and `method` are absent), and a
`.txt` path yields `[]`. -/
theorem extractor_contract_witness :
    extract_included_defs fsA "a.py" = ["foo", "Bar"] ∧
    extract_included_defs fsA "notes.txt" = [] :=
  ⟨((extractor_contract fsA "a.py").1 bodyA (by decide) rfl).trans (by decide),
   (extractor_contract fsA "notes.txt").2 (by decide) fsA⟩

/-- Extraction only consults the file system at the extracted path. -/
theorem extract_included_defs_congr (fs fs' : FS) (q : String)
    (h : fs q = fs' q) :
    extract_included_defs fs q = extract_included_defs fs' q := by
  unfold extract_included_defs
  rw [h]

/-- A file that fails to open or parse, or is not recognized as Python,
extracts to the empty symbol list. -/
theorem extract_included_defs_of_failure (fs : FS) (p : String)
    (h : fs p = .error ∨ endsWithPy p = false) :
    extract_included_defs fs p = [] := by
  unfold extract_included_defs
  rcases h with h | h
  · rw [h]
    split <;> rfl
  · simp [h]

theorem blankDefsAt_file_path (p : String) (sec : CodeSection) :
    (blankDefsAt p sec).file_path = sec.file_path := by
  unfold blankDefsAt
  split <;> rfl

/-- Two loop runs over file systems that agree away from `p` produce section
lists that agree except possibly in the `included_defs` of `p`'s section. -/
theorem aggregate_loop_map_blank (fs fs' : FS) (p : String)
    (hagree : ∀ q, q ≠ p → fs q = fs' q) (ms : List (String × String)) :
    ∀ st st' : List CodeSection × List String,
      st.1.map (blankDefsAt p) = st'.1.map (blankDefsAt p) →
      (aggregate_loop fs st ms).1.map (blankDefsAt p) =
        (aggregate_loop fs' st' ms).1.map (blankDefsAt p) := by
  induction ms with
  | nil => exact fun st st' h => h
  | cons m ms ih =>
    intro st st' h
    rw [aggregate_loop_cons, aggregate_loop_cons]
    apply ih
    rw [process_match_eq, process_match_eq]
    have hpaths : ∀ l : List CodeSection,
        l.any (fun sec => sec.file_path == m.1) =
          (l.map (blankDefsAt p)).any (fun sec => sec.file_path == m.1) := by
      intro l
      rw [List.any_map]
      congr 1
      funext sec
      simp [Function.comp, blankDefsAt_file_path]
    have hany : (st.1.any fun sec => sec.file_path == m.1) =
        (st'.1.any fun sec => sec.file_path == m.1) := by
      rw [hpaths st.1, hpaths st'.1, h]
    rw [← hany]
    by_cases hc : (st.1.any fun sec => sec.file_path == m.1) = true
    · rw [if_pos hc, if_pos hc]
      exact h
    · rw [if_neg hc, if_neg hc]
      dsimp only
      rw [List.map_append, List.map_append, h, List.map_cons, List.map_nil,
          List.map_cons, List.map_nil]
      by_cases hq : m.1 = p
      · subst hq
        unfold blankDefsAt
        simp
      · have hext := extract_included_defs_congr fs fs' m.1 (hagree m.1 hq)
        rw [hext]

/-- C7: a per-file extraction failure (unreadable or unparsable file, or an
unsupported language) still yields a `CodeSection` for that file, with
`included_defs = []`; and the failing file influences nothing else — two
runs whose file systems agree on every other path produce collections that
are identical except possibly in that one file's `included_defs`. -/
theorem extraction_failure_is_local (fs fs' : FS)
    (grep_results : List (String × String)) (p : String)
    (hfail : fs p = .error ∨ endsWithPy p = false)
    (hagree : ∀ q, q ≠ p → fs q = fs' q) :
    (p ∈ grep_results.map Prod.fst →
      ∃ sec ∈ aggregate_sections fs grep_results,
        sec.file_path = p ∧ sec.included_defs = []) ∧
    (aggregate_sections fs grep_results).map (blankDefsAt p) =
      (aggregate_sections fs' grep_results).map (blankDefsAt p) := by
  constructor
  · intro hp
    have hfind : (aggregate_sections fs grep_results).find?
        (fun sec => sec.file_path == p) =
        (grep_results.find? (fun m => m.1 == p)).map
          (fun m => ⟨m.2, m.1, extract_included_defs fs m.1, (1.0 : ℚ)⟩) := by
      rw [aggregate_sections, aggregate_loop_find?]
      rfl
    obtain ⟨m, hm, hm1⟩ := List.mem_map.1 hp
    have hsome : (grep_results.find? (fun m' => m'.1 == p)).isSome = true :=
      List.find?_isSome.2 ⟨m, hm, beq_iff_eq.2 hm1⟩
    obtain ⟨m₀, hm₀⟩ := Option.isSome_iff_exists.1 hsome
    have hpred := List.find?_some hm₀
    have hm₀p : m₀.1 = p := beq_iff_eq.1 hpred
    refine ⟨⟨m₀.2, m₀.1, extract_included_defs fs m₀.1, (1.0 : ℚ)⟩, ?_, hm₀p, ?_⟩
    · apply List.mem_of_find?_eq_some
        (p := fun sec : CodeSection => sec.file_path == p)
      rw [hfind, hm₀]
      rfl
    · rw [hm₀p]
      exact extract_included_defs_of_failure fs p hfail
  · exact aggregate_loop_map_blank fs fs' p hagree grep_results ([], []) ([], []) rfl

/-- C7 witness: `bad.py` fails to parse under `fsA`; its section still
appears, with no symbols, in a run that also matches `a.py`. -/
theorem extraction_failure_is_local_witness :
    ∃ sec ∈ aggregate_sections fsA [("bad.py", "x"), ("a.py", "y")],
      sec.file_path = "bad.py" ∧ sec.included_defs = [] := by
  refine (extraction_failure_is_local fsA fsB [("bad.py", "x"), ("a.py", "y")]
      "bad.py" (Or.inl rfl) ?_).1 (by decide)
  intro q hq
  simp only [fsB]
  rw [if_neg hq]

theorem splitCharsOn_cons_sep (sep : Char) (cs : List Char) :
    splitCharsOn sep (sep :: cs) = [] :: splitCharsOn sep cs := by
  simp [splitCharsOn]

theorem splitCharsOn_cons_ne (sep c : Char) (cs : List Char) (hc : c ≠ sep) :
    splitCharsOn sep (c :: cs) =
      match splitCharsOn sep cs with
      | r :: rs => (c :: r) :: rs
      | [] => [[c]] := by
  simp [splitCharsOn, hc]

/-- Splitting never produces an empty field list. -/
theorem splitCharsOn_ne_nil (sep : Char) (l : List Char) :
    splitCharsOn sep l ≠ [] := by
  induction l with
  | nil => simp [splitCharsOn]
  | cons c cs ih =>
    by_cases hc : c = sep
    · subst hc
      rw [splitCharsOn_cons_sep]
      simp
    · rw [splitCharsOn_cons_ne sep c cs hc]
      rcases h : splitCharsOn sep cs with _ | ⟨r, rs⟩
      · exact absurd h ih
      · simp

/-- A separator occurrence after a separator-free prefix splits off exactly
that prefix. -/
theorem splitCharsOn_append_sep (sep : Char) (a r : List Char) :
    sep ∉ a → splitCharsOn sep (a ++ sep :: r) = a :: splitCharsOn sep r := by
  induction a with
  | nil =>
    intro _
    simpa using splitCharsOn_cons_sep sep r
  | cons c cs ih =>
    intro ha
    have hc : c ≠ sep := by
      intro h
      exact ha (by rw [h]; exact List.mem_cons_self sep cs)
    have ha' : sep ∉ cs := fun hmem => ha (List.mem_cons_of_mem c hmem)
    rw [List.cons_append, splitCharsOn_cons_ne sep c _ hc, ih ha']

theorem joinColon_cons_cons (c : Char) (r : List Char)
    (rs : List (List Char)) :
    joinColon ((c :: r) :: rs) = c :: joinColon (r :: rs) := by
  cases rs <;> rfl

/-- Rejoining the full colon split restores the original characters. -/
theorem joinColon_splitColon (l : List Char) :
    joinColon (splitCharsOn ':' l) = l := by
  induction l with
  | nil => rfl
  | cons c cs ih =>
    obtain ⟨r, rs, hsp⟩ :=
      List.exists_cons_of_ne_nil (splitCharsOn_ne_nil ':' cs)
    by_cases hc : c = ':'
    · subst hc
      rw [splitCharsOn_cons_sep, hsp]
      show ':' :: joinColon (r :: rs) = ':' :: cs
      rw [← hsp, ih]
    · rw [splitCharsOn_cons_ne ':' c cs hc, hsp, joinColon_cons_cons, ← hsp, ih]

/-- C8: a raw output line `path:lineno:content` whose `path` and `lineno`
are colon-free parses to `(path, content)` with any further colons of
`content` kept intact in the matched-line text; a line with fewer than three
colon-separated fields is discarded (parses to `none`) without an error. -/
theorem parse_grep_line_spec :
    (∀ path num content : String, ':' ∉ path.data → ':' ∉ num.data →
      parseGrepLine (path ++ ":" ++ num ++ ":" ++ content) =
        some (path, content)) ∧
    (∀ line : String, (splitCharsOnColon line.data).length < 3 →
      parseGrepLine line = none) := by
  constructor
  · intro path num content hpath hnum
    have hdata : (path ++ ":" ++ num ++ ":" ++ content).data =
        path.data ++ ':' :: (num.data ++ ':' :: content.data) := by
      simp [String.data_append]
    have hne : (path ++ ":" ++ num ++ ":" ++ content) ≠ "" := by
      intro h
      have h' := congrArg String.data h
      rw [hdata] at h'
      simp at h'
    obtain ⟨c0, rest, hsp⟩ :=
      List.exists_cons_of_ne_nil (splitCharsOn_ne_nil ':' content.data)
    have hj : joinColon (c0 :: rest) = content.data := by
      rw [← hsp]
      exact joinColon_splitColon content.data
    unfold parseGrepLine pySplit2Colon splitCharsOnColon
    rw [if_neg hne, hdata, splitCharsOn_append_sep ':' _ _ hpath,
        splitCharsOn_append_sep ':' _ _ hnum, hsp]
    show some (⟨path.data⟩, ⟨joinColon (c0 :: rest)⟩) = some (path, content)
    rw [hj]
  · intro line hlen
    unfold parseGrepLine pySplit2Colon splitCharsOnColon
    split
    · rfl
    · rcases hsp : splitCharsOn ':' line.data with _ | ⟨a, _ | ⟨b, _ | ⟨c, rest⟩⟩⟩
      · exact absurd hsp (splitCharsOn_ne_nil ':' line.data)
      · rfl
      · rfl
      · rw [splitCharsOnColon, hsp] at hlen
        simp at hlen
        omega

/-- C8 witness: a well-formed line with colons in its content, and a line
with too few fields. -/
theorem parse_grep_line_spec_witness :
    parseGrepLine "a.py:12:x: y:z" = some ("a.py", "x: y:z") ∧
    parseGrepLine "nocolon" = none :=
  ⟨parse_grep_line_spec.1 "a.py" "12" "x: y:z" (by decide) (by decide),
   parse_grep_line_spec.2 "nocolon" (by decide)⟩

/-- C10: the extraction step collects a name if and only if a top-level
plain `def` (`ast.FunctionDef`) or `class` (`ast.ClassDef`) of that name is
in the module body; in particular a top-level `async def`
(`ast.AsyncFunctionDef`, a distinct class matching neither `isinstance`
test) contributes nothing, so its name is omitted unless some plain
definition shares it. -/
theorem async_defs_not_collected (fs : FS) (p : String) (body : List PyStmt)
    (hpy : endsWithPy p = true) (hfs : fs p = .ok body) :
    (∀ name, name ∈ extract_included_defs fs p ↔
      ((∃ b, PyStmt.functionDef name b ∈ body) ∨
       (∃ b, PyStmt.classDef name b ∈ body))) ∧
    (∀ name nbody, PyStmt.asyncFunctionDef name nbody ∈ body →
      (∀ b, PyStmt.functionDef name b ∉ body) →
      (∀ b, PyStmt.classDef name b ∉ body) →
      name ∉ extract_included_defs fs p) := by
  have hext : extract_included_defs fs p =
      body.filterMap fun n =>
        match n with
        | .classDef name _ => some name
        | .functionDef name _ => some name
        | _ => none := by
    unfold extract_included_defs
    rw [if_pos hpy, hfs]
  have hch : ∀ name, name ∈ extract_included_defs fs p ↔
      ((∃ b, PyStmt.functionDef name b ∈ body) ∨
       (∃ b, PyStmt.classDef name b ∈ body)) := by
    intro name
    rw [hext, List.mem_filterMap]
    constructor
    · rintro ⟨s, hs, hsome⟩
      cases s with
      | functionDef n b =>
        simp only [Option.some.injEq] at hsome
        exact Or.inl ⟨b, hsome ▸ hs⟩
      | classDef n b =>
        simp only [Option.some.injEq] at hsome
        exact Or.inr ⟨b, hsome ▸ hs⟩
      | asyncFunctionDef n b => simp at hsome
      | other => simp at hsome
    · rintro (⟨b, hb⟩ | ⟨b, hb⟩)
      · exact ⟨.functionDef name b, hb, rfl⟩
      · exact ⟨.classDef name b, hb, rfl⟩
  refine ⟨hch, ?_⟩
  intro name nbody _hmem hfun hcls hin
  rcases (hch name).1 hin with ⟨b, hb⟩ | ⟨b, hb⟩
  · exact hfun b hb
  · exact hcls b hb

/-- C10 witness: the top-level `async def fetch` in the fixture `a.py` is
not collected. -/
theorem async_defs_not_collected_witness :
    "fetch" ∉ extract_included_defs fsA "a.py" :=
  (async_defs_not_collected fsA "a.py" bodyA (by decide) rfl).2 "fetch" []
    (List.mem_cons_of_mem _ (List.mem_cons_of_mem _ (List.mem_cons_self _ _)))
    (by intro b hb; simp [bodyA] at hb)
    (by intro b hb; simp [bodyA] at hb)

end GitGrep
